import Mathlib

/-!
Shallow embedding of the core pipeline of spectrogram_lines.cpp
(3D-Real-Time-Spectrogram): index wrapping, the audio output callback,
the latency-compensated analysis window start, the history ring, the
colormap lookup, the line builder and the log-frequency bar mapping.
Machine floats are modelled as rationals where the code only moves or
compares them, and as real numbers where transcendental functions
(log10, pow) are involved.
-/

/-- Embeds wrapIndex (spectrogram_lines.cpp:392-397): C truncated modulo
followed by a negative fixup, with an explicit guard for size zero. -/
def wrapIndex (idx : Int) (size : Nat) : Nat :=
  if size = 0 then 0
  else
    let m := Int.tmod idx (size : Int)
    (if m < 0 then m + (size : Int) else m).toNat

lemma natAbs_tmod_eq (a b : Int) :
    (Int.tmod a b).natAbs = a.natAbs % b.natAbs := by
  cases a <;> cases b <;> simp [Int.tmod, Int.natAbs_neg] <;> norm_cast

lemma tmod_bounds (a : Int) (size : Nat) (h : 0 < size) :
    -(size : Int) < Int.tmod a (size : Int) ∧ Int.tmod a (size : Int) < (size : Int) := by
  have h1 : (Int.tmod a (size : Int)).natAbs = a.natAbs % size := by
    simpa using natAbs_tmod_eq a (size : Int)
  have h2 : a.natAbs % size < size := Nat.mod_lt _ h
  omega

lemma wrapIndex_eq_emod (idx : Int) (size : Nat) (h : 0 < size) :
    (wrapIndex idx size : Int) = idx % (size : Int) := by
  unfold wrapIndex
  have hsz : ¬ size = 0 := by omega
  simp only [if_neg hsz]
  have hb := tmod_bounds idx size h
  have hidx : idx % (size : Int) = Int.tmod idx (size : Int) % (size : Int) := by
    conv_lhs => rw [← Int.tmod_add_tdiv idx (size : Int)]
    exact Int.add_mul_emod_self_left (Int.tmod idx (size : Int)) (size : Int)
      (Int.tdiv idx (size : Int))
  by_cases hneg : Int.tmod idx (size : Int) < 0
  · rw [if_pos hneg]
    have hshift : (Int.tmod idx (size : Int) + (size : Int)) % (size : Int)
        = Int.tmod idx (size : Int) % (size : Int) := by
      have h1 := Int.add_mul_emod_self_left (Int.tmod idx (size : Int)) (size : Int) 1
      rw [Int.mul_one] at h1
      exact h1
    have hlt : Int.tmod idx (size : Int) + (size : Int) < (size : Int) := by omega
    have hge : 0 ≤ Int.tmod idx (size : Int) + (size : Int) := by omega
    have := Int.emod_eq_of_lt hge hlt
    omega
  · rw [if_neg hneg]
    have hge : 0 ≤ Int.tmod idx (size : Int) := by omega
    have := Int.emod_eq_of_lt hge hb.2
    omega

/-- C3: for every integer offset idx and positive size, wrapIndex returns a
value in the interval from 0 to size, and wrapping is invariant under adding
any integer multiple of size to the offset. -/
theorem wrapIndex_wraparound (idx : Int) (size : Nat) (h : 0 < size) :
    wrapIndex idx size < size ∧
      ∀ k : Int, wrapIndex (idx + k * (size : Int)) size = wrapIndex idx size := by
  constructor
  · have h1 := wrapIndex_eq_emod idx size h
    have h2 : idx % (size : Int) < (size : Int) :=
      Int.emod_lt_of_pos idx (by exact_mod_cast h)
    omega
  · intro k
    have h1 := wrapIndex_eq_emod (idx + k * (size : Int)) size h
    have h2 := wrapIndex_eq_emod idx size h
    have h3 : (idx + k * (size : Int)) % (size : Int) = idx % (size : Int) := by
      rw [Int.mul_comm k (size : Int)]
      exact Int.add_mul_emod_self_left idx (size : Int) k
    omega

theorem wrapIndex_wraparound_witness :
    wrapIndex (-11) 7 < 7 ∧ wrapIndex (-11 + 3 * (7 : Int)) 7 = wrapIndex (-11) 7 := by
  have h := wrapIndex_wraparound (-11) 7 (by decide)
  exact ⟨h.1, h.2 3⟩

/-- C10: wrapIndex is total even at buffer length zero, where it returns 0
instead of dividing by zero; for positive size the result is below size. -/
theorem wrapIndex_total (idx : Int) (size : Nat) :
    (size = 0 → wrapIndex idx size = 0) ∧ (0 < size → wrapIndex idx size < size) := by
  constructor
  · intro h
    subst h
    simp [wrapIndex]
  · intro h
    have h1 := wrapIndex_eq_emod idx size h
    have h2 : idx % (size : Int) < (size : Int) :=
      Int.emod_lt_of_pos idx (by exact_mod_cast h)
    omega

theorem wrapIndex_total_witness :
    wrapIndex (-5) 0 = 0 ∧ wrapIndex (-5) 3 < 3 :=
  ⟨(wrapIndex_total (-5) 0).1 rfl, (wrapIndex_total (-5) 3).2 (by decide)⟩

/-! ### Audio output callback (spectrogram_lines.cpp:789-826)

One mono sample is read per output frame and duplicated across the
interleaved output channels; sample values are rationals standing for the
float samples (the callback only copies and scales them by the volume). -/

/-- Per-frame recursion of the body of the audioCallback loop
(spectrogram_lines.cpp:802-822): arguments are the remaining frame count
and the current playback position. -/
def audioCallbackGo (paused loop : Bool) (data : List ℚ) (vol : ℚ) (outCh : Nat) :
    Nat → Nat → List ℚ × Nat
  | 0, pos => ([], pos)
  | frames + 1, pos =>
    if paused = true ∨ data.length = 0 then
      let rest := audioCallbackGo paused loop data vol outCh frames pos
      (List.replicate outCh 0 ++ rest.1, rest.2)
    else if pos < data.length then
      let rest := audioCallbackGo paused loop data vol outCh frames (pos + 1)
      (List.replicate outCh (data.getD pos 0 * vol) ++ rest.1, rest.2)
    else if loop = true then
      let rest := audioCallbackGo paused loop data vol outCh frames 1
      (List.replicate outCh (data.getD 0 0 * vol) ++ rest.1, rest.2)
    else
      let rest := audioCallbackGo paused loop data vol outCh frames pos
      (List.replicate outCh 0 ++ rest.1, rest.2)

/-- Embeds audioCallback (spectrogram_lines.cpp:789-826): the stream fill
callback, taking the paused and loop flags, the mono sample buffer, the
volume factor, the configured output channel count (floored at one as in
the source), the frame count and the entry playback position; returns the
interleaved output samples and the final playback position. -/
def audioCallback (paused loop : Bool) (data : List ℚ) (vol : ℚ)
    (outChannels frames pos : Nat) : List ℚ × Nat :=
  audioCallbackGo paused loop data vol (max 1 outChannels) frames pos

lemma audioCallbackGo_succ_eq (paused loop : Bool) (data : List ℚ) (vol : ℚ)
    (outCh f pos : Nat) :
    audioCallbackGo paused loop data vol outCh (f + 1) pos =
      if paused = true ∨ data.length = 0 then
        (List.replicate outCh 0 ++ (audioCallbackGo paused loop data vol outCh f pos).1,
          (audioCallbackGo paused loop data vol outCh f pos).2)
      else if pos < data.length then
        (List.replicate outCh (data.getD pos 0 * vol)
            ++ (audioCallbackGo paused loop data vol outCh f (pos + 1)).1,
          (audioCallbackGo paused loop data vol outCh f (pos + 1)).2)
      else if loop = true then
        (List.replicate outCh (data.getD 0 0 * vol)
            ++ (audioCallbackGo paused loop data vol outCh f 1).1,
          (audioCallbackGo paused loop data vol outCh f 1).2)
      else
        (List.replicate outCh 0 ++ (audioCallbackGo paused loop data vol outCh f pos).1,
          (audioCallbackGo paused loop data vol outCh f pos).2) := rfl

lemma range_flatMap_succ {α : Type} (g : Nat → List α) (n : Nat) :
    (List.range (n + 1)).flatMap g = g 0 ++ (List.range n).flatMap (fun i => g (i + 1)) := by
  rw [List.range_succ_eq_map, List.flatMap_cons, List.flatMap_map]

lemma audioCallbackGo_length (paused loop : Bool) (data : List ℚ) (vol : ℚ)
    (outCh : Nat) : ∀ frames pos,
    (audioCallbackGo paused loop data vol outCh frames pos).1.length = frames * outCh := by
  intro frames
  induction frames with
  | zero => intro pos; simp [audioCallbackGo]
  | succ f ih =>
    intro pos
    have hsucc : outCh + f * outCh = (f + 1) * outCh := by ring
    rw [audioCallbackGo_succ_eq]
    by_cases h1 : paused = true ∨ data.length = 0
    · rw [if_pos h1]
      simp only [List.length_append, List.length_replicate, ih, hsucc]
    · rw [if_neg h1]
      by_cases h2 : pos < data.length
      · rw [if_pos h2]
        simp only [List.length_append, List.length_replicate, ih, hsucc]
      · rw [if_neg h2]
        by_cases h3 : loop = true
        · rw [if_pos h3]
          simp only [List.length_append, List.length_replicate, ih, hsucc]
        · rw [if_neg h3]
          simp only [List.length_append, List.length_replicate, ih, hsucc]

lemma audioCallbackGo_when_paused (loop : Bool) (data : List ℚ) (vol : ℚ)
    (outCh : Nat) : ∀ frames pos,
    audioCallbackGo true loop data vol outCh frames pos =
      (List.replicate (frames * outCh) 0, pos) := by
  intro frames
  induction frames with
  | zero => intro pos; simp [audioCallbackGo]
  | succ f ih =>
    intro pos
    rw [audioCallbackGo_succ_eq, if_pos (Or.inl rfl), ih pos]
    have hsucc : (f + 1) * outCh = outCh + f * outCh := by ring
    rw [hsucc, List.replicate_add]

lemma audioCallbackGo_play (loop : Bool) (data : List ℚ) (vol : ℚ)
    (outCh : Nat) : ∀ frames pos, pos + frames ≤ data.length →
    audioCallbackGo false loop data vol outCh frames pos =
      ((List.range frames).flatMap
        (fun i => List.replicate outCh (data.getD (pos + i) 0 * vol)), pos + frames) := by
  intro frames
  induction frames with
  | zero => intro pos h; simp [audioCallbackGo]
  | succ f ih =>
    intro pos h
    have h1 : ¬ (false = true ∨ data.length = 0) := by
      simp only [Bool.false_eq_true, false_or]
      omega
    have hpos : pos < data.length := by omega
    rw [audioCallbackGo_succ_eq, if_neg h1, if_pos hpos, ih (pos + 1) (by omega),
      range_flatMap_succ]
    have hidx : ∀ i : Nat, pos + 1 + i = pos + (i + 1) := by intro i; omega
    simp only [Prod.mk.injEq, hidx]
    exact ⟨rfl, trivial⟩

lemma audioCallbackGo_ended_silence (data : List ℚ) (vol : ℚ)
    (outCh : Nat) : ∀ frames pos, data.length ≤ pos → data.length ≠ 0 →
    audioCallbackGo false false data vol outCh frames pos =
      (List.replicate (frames * outCh) 0, pos) := by
  intro frames
  induction frames with
  | zero => intro pos h hne; simp [audioCallbackGo]
  | succ f ih =>
    intro pos h hne
    have h1 : ¬ (false = true ∨ data.length = 0) := by
      simp only [Bool.false_eq_true, false_or]
      omega
    have hpos : ¬ pos < data.length := by omega
    have h3 : ¬ (false = true) := by simp
    rw [audioCallbackGo_succ_eq, if_neg h1, if_neg hpos, if_neg h3, ih pos h hne]
    have hsucc : (f + 1) * outCh = outCh + f * outCh := by ring
    rw [hsucc, List.replicate_add]

lemma audioCallbackGo_ended_loop (data : List ℚ) (vol : ℚ)
    (outCh frames pos : Nat) (h : data.length ≤ pos) (hne : data.length ≠ 0)
    (hf : 0 < frames) :
    audioCallbackGo false true data vol outCh frames pos =
      audioCallbackGo false true data vol outCh frames 0 := by
  obtain ⟨f, rfl⟩ : ∃ f, frames = f + 1 := ⟨frames - 1, by omega⟩
  have h1 : ¬ (false = true ∨ data.length = 0) := by
    simp only [Bool.false_eq_true, false_or]
    omega
  have hpos : ¬ pos < data.length := by omega
  have hzero : 0 < data.length := by omega
  rw [audioCallbackGo_succ_eq, if_neg h1, if_neg hpos, if_pos rfl,
    audioCallbackGo_succ_eq, if_neg h1, if_pos hzero]

/-- C2: the audio fill callback writes exactly frames times outputChannels
interleaved samples; when paused it writes silence and does not advance;
when playing strictly inside the buffer it reads consecutive samples from
the playback position, one per output frame; at end of buffer it restarts
from position zero if looping, else writes silence and stays put. -/
theorem audioCallback_contract (paused loop : Bool) (data : List ℚ) (vol : ℚ)
    (outChannels frames pos : Nat) (hch : 0 < outChannels) (hne : data ≠ []) :
    (audioCallback paused loop data vol outChannels frames pos).1.length
        = frames * outChannels ∧
    (paused = true →
      audioCallback paused loop data vol outChannels frames pos
        = (List.replicate (frames * outChannels) 0, pos)) ∧
    (paused = false → pos + frames ≤ data.length →
      audioCallback paused loop data vol outChannels frames pos
        = ((List.range frames).flatMap
            (fun i => List.replicate outChannels (data.getD (pos + i) 0 * vol)),
           pos + frames)) ∧
    (paused = false → loop = true → data.length ≤ pos → 0 < frames →
      audioCallback paused loop data vol outChannels frames pos
        = audioCallback paused loop data vol outChannels frames 0) ∧
    (paused = false → loop = false → data.length ≤ pos →
      audioCallback paused loop data vol outChannels frames pos
        = (List.replicate (frames * outChannels) 0, pos)) := by
  have hmax : max 1 outChannels = outChannels := by omega
  have hlen : data.length ≠ 0 := by
    intro h
    exact hne (List.eq_nil_of_length_eq_zero h)
  unfold audioCallback
  rw [hmax]
  refine ⟨audioCallbackGo_length paused loop data vol outChannels frames pos, ?_, ?_, ?_, ?_⟩
  · intro hp; subst hp
    exact audioCallbackGo_when_paused loop data vol outChannels frames pos
  · intro hp hin; subst hp
    exact audioCallbackGo_play loop data vol outChannels frames pos hin
  · intro hp hl hpos hf; subst hp; subst hl
    exact audioCallbackGo_ended_loop data vol outChannels frames pos hpos hlen hf
  · intro hp hl hpos; subst hp; subst hl
    exact audioCallbackGo_ended_silence data vol outChannels frames pos hpos hlen

theorem audioCallback_contract_witness :
    (0 < 2 ∧ ([(2 : ℚ), 3, 5] : List ℚ) ≠ []) ∧
    (audioCallback false true [(2 : ℚ), 3, 5] (1/2) 2 2 0).1.length = 2 * 2 ∧
    audioCallback false true [(2 : ℚ), 3, 5] (1/2) 2 2 0
      = ((List.range 2).flatMap
          (fun i => List.replicate 2 (([(2 : ℚ), 3, 5].getD (0 + i) 0) * (1/2))), 0 + 2) := by
  have h := audioCallback_contract false true [(2 : ℚ), 3, 5] (1/2) 2 2 0
    (by decide) (by decide)
  exact ⟨⟨by decide, by decide⟩, h.1, h.2.2.1 rfl (by decide)⟩

/-! ### History ring (spectrogram_lines.cpp:278-281, 884-893, 2141-2149, 2335-2338)

The flat float array lineHistory is viewed as a map from row index to row;
a row is a list of rationals (one value per bar). The memmove in
pushLineToHistory copies rows 0 to depth-2 onto rows 1 to depth-1 and the
memcpy overwrites row 0, leaving rows at or beyond the current depth
untouched. -/

abbrev Line : Type := List ℚ

/-- Embeds pushLineToHistory (spectrogram_lines.cpp:884-888), acting on the
row view of lineHistory for the currently configured depth HISTORY_LINES. -/
def pushLineToHistory (depth : Nat) (hist : Nat → Line) (line : Line) : Nat → Line :=
  fun k => if k = 0 then line else if k < depth then hist (k - 1) else hist k

/-- The saturating fill-counter update of pushLineToHistory
(spectrogram_lines.cpp:889-892). -/
def pushFillCount (depth fill : Nat) : Nat :=
  if fill < depth then fill + 1 else fill

/-- A ring whose rows all hold the same row value, as after the global
clear of lineHistory (spectrogram_lines.cpp:2145). -/
def constRing (z : Line) : Nat → Line :=
  fun _ => z

/-- Iterated pushLineToHistory over a list of lines, oldest first. -/
def pushManyLines (depth : Nat) (hist : Nat → Line) (ls : List Line) : Nat → Line :=
  ls.foldl (pushLineToHistory depth) hist

lemma pushManyLines_row (depth : Nat) (ls : List Line) :
    ∀ (hist : Nat → Line) (k : Nat), k < depth →
      pushManyLines depth hist ls k =
        if k < ls.length then ls.getD (ls.length - 1 - k) [] else hist (k - ls.length) := by
  induction ls with
  | nil =>
    intro hist k hk
    simp [pushManyLines]
  | cons a l ih =>
    intro hist k hk
    have hstep : pushManyLines depth hist (a :: l)
        = pushManyLines depth (pushLineToHistory depth hist a) l := by
      simp [pushManyLines]
    rw [hstep, ih (pushLineToHistory depth hist a) k hk]
    rcases Nat.lt_trichotomy k l.length with h1 | h1 | h1
    · rw [if_pos h1, if_pos (by simp; omega)]
      have hidx : (a :: l).length - 1 - k = (l.length - 1 - k) + 1 := by
        simp only [List.length_cons]
        omega
      rw [hidx, List.getD_cons_succ]
    · rw [if_neg (by omega), if_pos (by simp; omega)]
      have hz : k - l.length = 0 := by omega
      have hidx : (a :: l).length - 1 - k = 0 := by
        simp only [List.length_cons]
        omega
      rw [hz, hidx, List.getD_cons_zero]
      simp [pushLineToHistory]
    · rw [if_neg (by omega), if_neg (by simp; omega)]
      have hne : ¬ (k - l.length = 0) := by omega
      have hlt : k - l.length < depth := by omega
      simp only [pushLineToHistory, if_neg hne, if_pos hlt, List.length_cons]
      have hshift : k - l.length - 1 = k - (l.length + 1) := by omega
      rw [hshift]

/-- C4: pushing one line onto an all-z ring puts it in row 0 and leaves the
other rows within the depth at z; pushing depth+1 pairwise distinct lines,
oldest first, leaves the newest in row 0, line depth+1-k in row k for every
k below the depth, and evicts the first line from every row within the
depth. -/
theorem historyRing_shift_law (depth : Nat) (z line : Line) (ls : List Line)
    (hd : 0 < depth) (hlen : ls.length = depth + 1)
    (hdist : ls.Pairwise (fun a b => a ≠ b)) :
    (pushLineToHistory depth (constRing z) line 0 = line
      ∧ ∀ k, 0 < k → k < depth → pushLineToHistory depth (constRing z) line k = z)
    ∧ (pushManyLines depth (constRing z) ls 0 = ls.getD depth []
      ∧ (∀ k, k < depth → pushManyLines depth (constRing z) ls k = ls.getD (depth - k) [])
      ∧ (∀ k, k < depth → pushManyLines depth (constRing z) ls k ≠ ls.getD 0 [])) := by
  have hrow : ∀ k, k < depth →
      pushManyLines depth (constRing z) ls k = ls.getD (depth - k) [] := by
    intro k hk
    rw [pushManyLines_row depth ls (constRing z) k hk, if_pos (by omega)]
    congr 1
    omega
  refine ⟨⟨rfl, ?_⟩, ?_, hrow, ?_⟩
  · intro k hk0 hkd
    simp only [pushLineToHistory, if_neg (by omega : ¬ k = 0), if_pos hkd]
    rfl
  · rw [hrow 0 hd, Nat.sub_zero]
  · intro k hk
    rw [hrow k hk]
    have hne := List.pairwise_iff_getElem.mp hdist 0 (depth - k)
      (by omega) (by omega) (by omega)
    rw [List.getD_eq_getElem ls [] (by omega), List.getD_eq_getElem ls [] (by omega)]
    exact fun h => hne h.symm

theorem historyRing_shift_law_witness :
    (0 < 2 ∧ ([[(1 : ℚ)], [2], [3]] : List Line).length = 2 + 1
      ∧ ([[(1 : ℚ)], [2], [3]] : List Line).Pairwise (fun a b => a ≠ b)) ∧
    pushManyLines 2 (constRing ([] : Line)) [[(1 : ℚ)], [2], [3]] 0
      = ([[(1 : ℚ)], [2], [3]] : List Line).getD 2 [] ∧
    pushManyLines 2 (constRing ([] : Line)) [[(1 : ℚ)], [2], [3]] 1
      ≠ ([[(1 : ℚ)], [2], [3]] : List Line).getD 0 [] := by
  have h := historyRing_shift_law 2 [] [(5 : ℚ)] [[(1 : ℚ)], [2], [3]]
    (by decide) (by decide) (by decide)
  exact ⟨⟨by decide, by decide, by decide⟩, h.2.1, h.2.2.2 1 (by decide)⟩

/-! ### Fill counter versus runtime depth changes
(spectrogram_lines.cpp:281, 889-892, 2141-2149, 2335-2338)

The counter historyFillCount saturates at HISTORY_LINES on push and is
zeroed by the Clear Visualization button, but no code path touches it when
HISTORY_LINES itself is changed (the InputInt clamp at 2335-2338 and the
direct assignments on view switches only write HISTORY_LINES). -/

def MAX_HISTORY_LINES : Nat := 560

structure HistoryCounterState where
  depth : Nat
  fill : Nat
deriving DecidableEq

inductive HistoryOp where
  | push
  | clear
  | setDepth (d : Int)
deriving DecidableEq

/-- The InputInt handler clamp (spectrogram_lines.cpp:2335-2338): the
requested line count is clamped into the range 10 to MAX_HISTORY_LINES. -/
def clampDepth (d : Int) : Nat :=
  (max 10 (min d (MAX_HISTORY_LINES : Int))).toNat

/-- One user-visible operation on the history counter state: a line push
(spectrogram_lines.cpp:889-892), the clear button
(spectrogram_lines.cpp:2141-2149), or a depth change
(spectrogram_lines.cpp:2335-2338). -/
def applyHistoryOp (s : HistoryCounterState) : HistoryOp → HistoryCounterState
  | .push => { s with fill := pushFillCount s.depth s.fill }
  | .clear => { s with fill := 0 }
  | .setDepth d => { s with depth := clampDepth d }

/-- The startup state: HISTORY_LINES = 140 and historyFillCount = 0
(spectrogram_lines.cpp:199, 281). -/
def initialHistoryCounterState : HistoryCounterState :=
  { depth := 140, fill := 0 }

def runHistoryOps (ops : List HistoryOp) : HistoryCounterState :=
  ops.foldl applyHistoryOp initialHistoryCounterState

/-- C5 counterexample: pushing 11 lines at the startup depth of 140 and
then lowering the depth to its clamp floor of 10 is a reachable trace
after which the fill counter (11) exceeds the configured depth (10),
because no operation clamps historyFillCount when HISTORY_LINES shrinks. -/
theorem historyFillCount_invariant_fails :
    (runHistoryOps (List.replicate 11 HistoryOp.push ++ [HistoryOp.setDepth 10])).depth
      < (runHistoryOps (List.replicate 11 HistoryOp.push ++ [HistoryOp.setDepth 10])).fill := by
  decide

lemma runHistoryOps_bounded_aux (ops : List HistoryOp) :
    ∀ s : HistoryCounterState, s.fill ≤ MAX_HISTORY_LINES →
      s.depth ≤ MAX_HISTORY_LINES →
      (ops.foldl applyHistoryOp s).fill ≤ MAX_HISTORY_LINES ∧
        (ops.foldl applyHistoryOp s).depth ≤ MAX_HISTORY_LINES := by
  induction ops with
  | nil => intro s h1 h2; exact ⟨h1, h2⟩
  | cons op rest ih =>
    intro s h1 h2
    rw [List.foldl_cons]
    refine ih (applyHistoryOp s op) ?_ ?_
    · cases op with
      | push =>
        simp only [applyHistoryOp, pushFillCount]
        split
        · next hlt => omega
        · exact h1
      | clear => simp [applyHistoryOp]
      | setDepth d => simpa [applyHistoryOp] using h1
    · cases op with
      | push => simpa [applyHistoryOp] using h2
      | clear => simpa [applyHistoryOp] using h2
      | setDepth d =>
        simp only [applyHistoryOp, clampDepth, MAX_HISTORY_LINES]
        omega

/-- C5 amended: pushes and clears preserve the bound of the fill counter by
the configured depth, and a depth change preserves it exactly when the new
clamped depth still dominates the counter; what holds in every reachable
state is only the compile-time bound fill at most MAX_HISTORY_LINES (and
likewise for the depth). -/
theorem historyFillCount_amended (s : HistoryCounterState) (d : Int)
    (ops : List HistoryOp) (hs : s.fill ≤ s.depth) :
    ((applyHistoryOp s .push).fill ≤ (applyHistoryOp s .push).depth) ∧
    ((applyHistoryOp s .clear).fill ≤ (applyHistoryOp s .clear).depth) ∧
    (s.fill ≤ clampDepth d →
      (applyHistoryOp s (.setDepth d)).fill ≤ (applyHistoryOp s (.setDepth d)).depth) ∧
    ((runHistoryOps ops).fill ≤ MAX_HISTORY_LINES ∧
      (runHistoryOps ops).depth ≤ MAX_HISTORY_LINES) := by
  refine ⟨?_, ?_, ?_, ?_⟩
  · simp only [applyHistoryOp, pushFillCount]
    split
    · next hlt => omega
    · exact hs
  · simp [applyHistoryOp]
  · intro hd
    simpa [applyHistoryOp] using hd
  · exact runHistoryOps_bounded_aux ops initialHistoryCounterState (by decide) (by decide)

theorem historyFillCount_amended_witness :
    (({ depth := 140, fill := 140 } : HistoryCounterState).fill ≤ 140 ∧
      ({ depth := 140, fill := 140 } : HistoryCounterState).fill ≤ clampDepth 150) ∧
    (applyHistoryOp { depth := 140, fill := 140 } .push).fill
        ≤ (applyHistoryOp { depth := 140, fill := 140 } .push).depth ∧
    (applyHistoryOp { depth := 140, fill := 140 } (.setDepth 150)).fill
        ≤ (applyHistoryOp { depth := 140, fill := 140 } (.setDepth 150)).depth ∧
    ((runHistoryOps [.push, .clear]).fill ≤ MAX_HISTORY_LINES ∧
      (runHistoryOps [.push, .clear]).depth ≤ MAX_HISTORY_LINES) := by
  have h := historyFillCount_amended { depth := 140, fill := 140 } 150 [.push, .clear]
    (by decide)
  exact ⟨⟨by decide, by decide⟩, h.1, h.2.2.1 (by decide), h.2.2.2⟩

/-! ### Audio file loading (spectrogram_lines.cpp:134-194)

WAVFile.load assigns sampleRate, sourceChannels and numChannels from the
opened file header before checking whether any frames were actually read;
only audioData is assigned after that check. The decoder outcome (what
sf_open and sf_readf_float return) is passed in as data. -/

structure WAVFile where
  audioData : List ℚ
  sampleRate : Nat
  sourceChannels : Nat
  numChannels : Nat
  bitsPerSample : Nat
deriving DecidableEq

/-- Outcome of the external decoder: either sf_open fails, or it reports a
header (samplerate, channels) and sf_readf_float then returns framesRead
frames of interleaved float data. -/
inductive DecodeOutcome where
  | openFail
  | opened (samplerate : Nat) (channels : Nat) (framesRead : Int) (buffer : List ℚ)

/-- The mono downmix loop of WAVFile.load (spectrogram_lines.cpp:176-184):
frame i becomes the arithmetic mean of its channels. -/
def downmixMono (channels framesRead : Nat) (buffer : List ℚ) : List ℚ :=
  (List.range framesRead).map (fun i =>
    ((List.range channels).map (fun ch => buffer.getD (i * channels + ch) 0)).sum
      / (channels : ℚ))

/-- Embeds WAVFile.load (spectrogram_lines.cpp:150-193) as a state
transition on the WAVFile fields, returning the success flag and the
updated state. The header fields are written before the framesRead check,
exactly as in the source (lines 161-163 precede the check at line 171). -/
def WAVFile.load (w : WAVFile) (res : DecodeOutcome) : Bool × WAVFile :=
  match res with
  | .openFail => (false, w)
  | .opened samplerate channels framesRead buffer =>
    let w1 := { w with sampleRate := samplerate,
                       sourceChannels := channels,
                       numChannels := 1 }
    if framesRead ≤ 0 then (false, w1)
    else (true, { w1 with audioData := downmixMono channels framesRead.toNat buffer })

/-- C6 counterexample: a file that opens but yields no readable frames
(sf_readf_float returns 0) makes load fail, yet the failing load has
already overwritten the sample rate (44100 becomes 48000) and the channel
count, so core state is not left unchanged on this failure path. -/
theorem load_failure_not_unchanged :
    (WAVFile.load
        { audioData := [1], sampleRate := 44100, sourceChannels := 2,
          numChannels := 1, bitsPerSample := 16 }
        (.opened 48000 1 0 [])).1 = false ∧
    ¬ ((WAVFile.load
        { audioData := [1], sampleRate := 44100, sourceChannels := 2,
          numChannels := 1, bitsPerSample := 16 }
        (.opened 48000 1 0 [])).2.sampleRate = 44100) := by
  decide

/-- C6 amended: when sf_open itself fails, load reports failure and leaves
the whole state unchanged; when the file opens but no frames are read,
load reports failure and leaves the sample buffer unchanged, but the
sample rate and channel counts have already been overwritten with the new
header values. -/
theorem load_failure_amended (w : WAVFile) (samplerate channels : Nat)
    (framesRead : Int) (buffer : List ℚ) (hfr : framesRead ≤ 0) :
    WAVFile.load w .openFail = (false, w) ∧
    ((WAVFile.load w (.opened samplerate channels framesRead buffer)).1 = false ∧
      (WAVFile.load w (.opened samplerate channels framesRead buffer)).2.audioData
        = w.audioData ∧
      (WAVFile.load w (.opened samplerate channels framesRead buffer)).2.sampleRate
        = samplerate ∧
      (WAVFile.load w (.opened samplerate channels framesRead buffer)).2.sourceChannels
        = channels) := by
  refine ⟨rfl, ?_⟩
  simp [WAVFile.load, hfr]

theorem load_failure_amended_witness :
    ((0 : Int) ≤ 0) ∧
    WAVFile.load
        { audioData := [1], sampleRate := 44100, sourceChannels := 2,
          numChannels := 1, bitsPerSample := 16 } .openFail
      = (false,
          { audioData := [1], sampleRate := 44100, sourceChannels := 2,
            numChannels := 1, bitsPerSample := 16 }) ∧
    (WAVFile.load
        { audioData := [1], sampleRate := 44100, sourceChannels := 2,
          numChannels := 1, bitsPerSample := 16 }
        (.opened 48000 1 0 [])).2.audioData = [1] := by
  have h := load_failure_amended
    { audioData := [1], sampleRate := 44100, sourceChannels := 2,
      numChannels := 1, bitsPerSample := 16 } 48000 1 0 [] (by decide)
  exact ⟨by decide, h.1, h.2.2.1⟩

/-! ### Latency-compensated analysis window start
(spectrogram_lines.cpp:829-856, 1360-1389)

startAudio records gLatencySamplesBase as the driver-reported output
latency in samples plus one FRAMES_PER_BUFFER period (line 1386);
processAudioFrameSynced subtracts that base plus the user adjustment and
half the FFT window from the playback position and wraps the result into
the sample buffer (lines 832-850, taken in the branch where the buffer is
at least FFT_SIZE samples long). -/

def FRAMES_PER_BUFFER : Nat := 256

/-- Embeds the latency constant setup in startAudio
(spectrogram_lines.cpp:1381-1386). -/
def startAudioLatencyBase (outLatencySamples : Int) : Int :=
  outLatencySamples + (FRAMES_PER_BUFFER : Int)

/-- Embeds the analysis window start computation of processAudioFrameSynced
(spectrogram_lines.cpp:832-850): the write head is the playback position,
the latency is the recorded base plus the user adjustment, and the window
center offset is half the FFT size in integer division. -/
def processAudioFrameSyncedStart (playbackPos : Nat) (latencyBase latencyAdjust : Int)
    (fftSize bufLen : Nat) : Nat :=
  let writeHead : Int := (playbackPos : Int)
  let latencySamples : Int := latencyBase + latencyAdjust
  let fftWindowCenter : Int := (fftSize : Int) / 2
  wrapIndex (writeHead - latencySamples - fftWindowCenter) bufLen

/-- The circularly wrapped sample indices read into the FFT input by the
long-buffer branch of processAudioFrameSynced
(spectrogram_lines.cpp:850-855). -/
def analysisWindowIndices (start fftSize bufLen : Nat) : List Nat :=
  (List.range fftSize).map (fun i => (start + i) % bufLen)

/-- C1: with the latency configured at stream start as the driver latency
in samples plus one buffer period, plus the user adjustment, the analysis
window start of a buffer at least FFT_SIZE long is the clock position
minus the total latency minus half the FFT size, wrapped into the buffer;
the branch then reads FFT_SIZE consecutive circularly wrapped samples from
that start. -/
theorem analysisWindowStart_sync (playbackPos : Nat) (outLatencySamples
    latencyAdjust : Int) (fftSize bufLen : Nat) (hbuf : fftSize ≤ bufLen) :
    processAudioFrameSyncedStart playbackPos (startAudioLatencyBase outLatencySamples)
        latencyAdjust fftSize bufLen
      = wrapIndex ((playbackPos : Int)
          - (outLatencySamples + (FRAMES_PER_BUFFER : Int) + latencyAdjust)
          - (fftSize : Int) / 2) bufLen ∧
    analysisWindowIndices
        (processAudioFrameSyncedStart playbackPos
          (startAudioLatencyBase outLatencySamples) latencyAdjust fftSize bufLen)
        fftSize bufLen
      = (List.range fftSize).map (fun i =>
          (processAudioFrameSyncedStart playbackPos
              (startAudioLatencyBase outLatencySamples) latencyAdjust fftSize bufLen
            + i) % bufLen) := by
  constructor
  · simp only [processAudioFrameSyncedStart, startAudioLatencyBase]
  · rfl

theorem analysisWindowStart_sync_witness :
    4096 ≤ 10000 ∧
    processAudioFrameSyncedStart 5000 (startAudioLatencyBase 1200) 0 4096 10000
      = wrapIndex ((5000 : Int) - (1200 + (FRAMES_PER_BUFFER : Int) + 0)
          - (4096 : Int) / 2) 10000 := by
  have h := analysisWindowStart_sync 5000 1200 0 4096 10000 (by decide)
  exact ⟨by decide, h.1⟩

/-! ### Colormap lookup (spectrogram_lines.cpp:453-680)

Control points and the bracketing linear interpolation of
getColormapColor; float literals become the same decimal rationals. The
C++ function writes through reference parameters, so the model takes the
incoming rgb triple and returns it unchanged when no branch fires. -/

def clamp01 (v : ℚ) : ℚ :=
  max 0 (min 1 v)

structure ColormapPoint where
  position : ℚ
  r : ℚ
  g : ℚ
  b : ℚ
deriving DecidableEq

/-- The bracketing-pair search loop of getColormapColor
(spectrogram_lines.cpp:477-485). -/
def lerpSegment : List ColormapPoint → ℚ → ℚ × ℚ × ℚ → ℚ × ℚ × ℚ
  | p :: q :: rest, value, rgb =>
    if p.position ≤ value ∧ value ≤ q.position then
      let t := (value - p.position) / (q.position - p.position)
      (p.r + t * (q.r - p.r), p.g + t * (q.g - p.g), p.b + t * (q.b - p.b))
    else lerpSegment (q :: rest) value rgb
  | _, _, rgb => rgb

/-- Embeds getColormapColor (spectrogram_lines.cpp:459-486): clamp the
value, return the first control point at or below its position, the last
control point at or above its position, otherwise interpolate in the
bracketing segment. -/
def getColormapColor (points : List ColormapPoint) (value : ℚ)
    (rgb : ℚ × ℚ × ℚ) : ℚ × ℚ × ℚ :=
  match points with
  | [] => rgb
  | p :: ps =>
    let v := clamp01 value
    if v ≤ p.position then (p.r, p.g, p.b)
    else if (ps.getLastD p).position ≤ v then
      ((ps.getLastD p).r, (ps.getLastD p).g, (ps.getLastD p).b)
    else lerpSegment (p :: ps) v rgb

def viridisMap : List ColormapPoint :=
  [⟨0, 0.267, 0.005, 0.329⟩, ⟨0.25, 0.283, 0.141, 0.458⟩, ⟨0.5, 0.128, 0.567, 0.551⟩,
   ⟨0.75, 0.369, 0.788, 0.383⟩, ⟨1, 0.993, 0.906, 0.144⟩]

def plasmaMap : List ColormapPoint :=
  [⟨0, 0.051, 0.029, 0.528⟩, ⟨0.25, 0.507, 0.006, 0.658⟩, ⟨0.5, 0.849, 0.203, 0.478⟩,
   ⟨0.75, 0.966, 0.544, 0.235⟩, ⟨1, 0.940, 0.976, 0.131⟩]

def infernoMap : List ColormapPoint :=
  [⟨0, 0.001, 0, 0.014⟩, ⟨0.25, 0.258, 0.039, 0.407⟩, ⟨0.5, 0.610, 0.157, 0.379⟩,
   ⟨0.75, 0.941, 0.459, 0.153⟩, ⟨1, 0.988, 0.998, 0.645⟩]

def magmaMap : List ColormapPoint :=
  [⟨0, 0.001, 0, 0.014⟩, ⟨0.25, 0.282, 0.088, 0.472⟩, ⟨0.5, 0.717, 0.215, 0.475⟩,
   ⟨0.75, 0.989, 0.527, 0.384⟩, ⟨1, 0.987, 0.991, 0.750⟩]

def hotMap : List ColormapPoint :=
  [⟨0, 0, 0, 0⟩, ⟨0.375, 1, 0, 0⟩, ⟨0.75, 1, 1, 0⟩, ⟨1, 1, 1, 1⟩]

def coolMap : List ColormapPoint :=
  [⟨0, 0, 1, 1⟩, ⟨0.5, 0.5, 0.5, 1⟩, ⟨1, 1, 0, 1⟩]

def jetMap : List ColormapPoint :=
  [⟨0, 0, 0, 0.5⟩, ⟨0.125, 0, 0, 1⟩, ⟨0.375, 0, 1, 1⟩, ⟨0.625, 1, 1, 0⟩,
   ⟨0.875, 1, 0, 0⟩, ⟨1, 0.5, 0, 0⟩]

def turboMap : List ColormapPoint :=
  [⟨0, 0.19, 0.07, 0.23⟩, ⟨0.13, 0.09, 0.44, 0.71⟩, ⟨0.25, 0.11, 0.64, 0.85⟩,
   ⟨0.38, 0.25, 0.83, 0.78⟩, ⟨0.50, 0.52, 0.90, 0.52⟩, ⟨0.63, 0.83, 0.89, 0.21⟩,
   ⟨0.75, 0.99, 0.72, 0.15⟩, ⟨0.88, 0.99, 0.38, 0.12⟩, ⟨1, 0.90, 0.15, 0.12⟩]

def oceanMap : List ColormapPoint :=
  [⟨0, 0, 0.5, 0⟩, ⟨0.5, 0, 0.5, 1⟩, ⟨1, 1, 1, 1⟩]

def rainbowMap : List ColormapPoint :=
  [⟨0, 0.5, 0, 1⟩, ⟨0.16, 0, 0, 1⟩, ⟨0.33, 0, 1, 1⟩, ⟨0.50, 0, 1, 0⟩,
   ⟨0.66, 1, 1, 0⟩, ⟨0.83, 1, 0.5, 0⟩, ⟨1, 1, 0, 0⟩]

def grayscaleMap : List ColormapPoint :=
  [⟨0, 0, 0, 0⟩, ⟨1, 1, 1, 1⟩]

def iceMap : List ColormapPoint :=
  [⟨0, 0, 0, 0.2⟩, ⟨0.5, 0, 0.5, 1⟩, ⟨1, 1, 1, 1⟩]

def fireMap : List ColormapPoint :=
  [⟨0, 0, 0, 0⟩, ⟨0.33, 0.5, 0, 0⟩, ⟨0.66, 1, 0.5, 0⟩, ⟨1, 1, 1, 0.5⟩]

def seismicMap : List ColormapPoint :=
  [⟨0, 0, 0, 0.3⟩, ⟨0.25, 0, 0, 1⟩, ⟨0.5, 1, 1, 1⟩, ⟨0.75, 1, 0, 0⟩, ⟨1, 0.5, 0, 0⟩]

def twilightMap : List ColormapPoint :=
  [⟨0, 0.886, 0.859, 0.937⟩, ⟨0.25, 0.329, 0.153, 0.533⟩, ⟨0.5, 0.051, 0.039, 0.090⟩,
   ⟨0.75, 0.345, 0.537, 0.686⟩, ⟨1, 0.886, 0.859, 0.937⟩]

def cividisMap : List ColormapPoint :=
  [⟨0, 0, 0.135, 0.304⟩, ⟨0.25, 0.184, 0.310, 0.424⟩, ⟨0.5, 0.467, 0.479, 0.408⟩,
   ⟨0.75, 0.796, 0.674, 0.424⟩, ⟨1, 0.992, 0.906, 0.574⟩]

inductive ColormapType where
  | COLORMAP_VIRIDIS
  | COLORMAP_PLASMA
  | COLORMAP_INFERNO
  | COLORMAP_MAGMA
  | COLORMAP_HOT
  | COLORMAP_COOL
  | COLORMAP_JET
  | COLORMAP_TURBO
  | COLORMAP_OCEAN
  | COLORMAP_RAINBOW
  | COLORMAP_GRAYSCALE
  | COLORMAP_ICE
  | COLORMAP_FIRE
  | COLORMAP_SEISMIC
  | COLORMAP_TWILIGHT
  | COLORMAP_CIVIDIS
deriving DecidableEq

/-- The switch of getCurrentColormapColor (spectrogram_lines.cpp:629-680);
the explicit point counts passed in the source equal the table lengths. -/
def colormapPoints : ColormapType → List ColormapPoint
  | .COLORMAP_VIRIDIS => viridisMap
  | .COLORMAP_PLASMA => plasmaMap
  | .COLORMAP_INFERNO => infernoMap
  | .COLORMAP_MAGMA => magmaMap
  | .COLORMAP_HOT => hotMap
  | .COLORMAP_COOL => coolMap
  | .COLORMAP_JET => jetMap
  | .COLORMAP_TURBO => turboMap
  | .COLORMAP_OCEAN => oceanMap
  | .COLORMAP_RAINBOW => rainbowMap
  | .COLORMAP_GRAYSCALE => grayscaleMap
  | .COLORMAP_ICE => iceMap
  | .COLORMAP_FIRE => fireMap
  | .COLORMAP_SEISMIC => seismicMap
  | .COLORMAP_TWILIGHT => twilightMap
  | .COLORMAP_CIVIDIS => cividisMap

def getCurrentColormapColor (cm : ColormapType) (value : ℚ)
    (rgb : ℚ × ℚ × ℚ) : ℚ × ℚ × ℚ :=
  getColormapColor (colormapPoints cm) value rgb

def firstPointRGB (cm : ColormapType) : ℚ × ℚ × ℚ :=
  match colormapPoints cm with
  | [] => (0, 0, 0)
  | p :: _ => (p.r, p.g, p.b)

def lastPointRGB (cm : ColormapType) : ℚ × ℚ × ℚ :=
  match colormapPoints cm with
  | [] => (0, 0, 0)
  | p :: ps => ((ps.getLastD p).r, (ps.getLastD p).g, (ps.getLastD p).b)

lemma clamp01_of_nonpos (v : ℚ) (hv : v ≤ 0) : clamp01 v = 0 := by
  unfold clamp01
  rw [min_eq_right (le_trans hv zero_le_one), max_eq_left hv]

lemma clamp01_of_one_le (v : ℚ) (hv : 1 ≤ v) : clamp01 v = 1 := by
  unfold clamp01
  rw [min_eq_left hv, max_eq_right zero_le_one]

lemma getColormapColor_head (p : ColormapPoint) (ps : List ColormapPoint)
    (v : ℚ) (rgb : ℚ × ℚ × ℚ) (hv : v ≤ 0) (hp : 0 ≤ p.position) :
    getColormapColor (p :: ps) v rgb = (p.r, p.g, p.b) := by
  have hred : getColormapColor (p :: ps) v rgb =
      (if clamp01 v ≤ p.position then (p.r, p.g, p.b)
       else if (ps.getLastD p).position ≤ clamp01 v then
         ((ps.getLastD p).r, (ps.getLastD p).g, (ps.getLastD p).b)
       else lerpSegment (p :: ps) (clamp01 v) rgb) := rfl
  rw [hred, clamp01_of_nonpos v hv, if_pos hp]

lemma getColormapColor_tail (p : ColormapPoint) (ps : List ColormapPoint)
    (v : ℚ) (rgb : ℚ × ℚ × ℚ) (hv : 1 ≤ v) (hp : p.position < 1)
    (hlast : (ps.getLastD p).position ≤ 1) :
    getColormapColor (p :: ps) v rgb
      = ((ps.getLastD p).r, (ps.getLastD p).g, (ps.getLastD p).b) := by
  have hred : getColormapColor (p :: ps) v rgb =
      (if clamp01 v ≤ p.position then (p.r, p.g, p.b)
       else if (ps.getLastD p).position ≤ clamp01 v then
         ((ps.getLastD p).r, (ps.getLastD p).g, (ps.getLastD p).b)
       else lerpSegment (p :: ps) (clamp01 v) rgb) := rfl
  rw [hred, clamp01_of_one_le v hv, if_neg (by exact not_le.mpr hp), if_pos hlast]

/-- C8: for every supported colormap, any value at or below zero (in
particular 0.0) selects exactly the first control point color and any
value at or above one (in particular 1.0) selects exactly the last control
point color, so out-of-range inputs clamp to the endpoint colors. -/
theorem colormap_endpoints (cm : ColormapType) (rgb : ℚ × ℚ × ℚ) (v : ℚ) :
    (v ≤ 0 → getCurrentColormapColor cm v rgb = firstPointRGB cm) ∧
    (1 ≤ v → getCurrentColormapColor cm v rgb = lastPointRGB cm) := by
  constructor
  · intro hv
    cases cm <;>
      exact getColormapColor_head _ _ v rgb hv (by norm_num [colormapPoints])
  · intro hv
    cases cm <;>
      exact getColormapColor_tail _ _ v rgb hv (by norm_num [colormapPoints])
        (by norm_num [colormapPoints])

theorem colormap_endpoints_witness :
    (((-3 : ℚ) ≤ 0) ∧ ((1 : ℚ) ≤ 2)) ∧
    getCurrentColormapColor .COLORMAP_INFERNO (-3) (0, 0, 0)
      = firstPointRGB .COLORMAP_INFERNO ∧
    getCurrentColormapColor .COLORMAP_INFERNO 2 (0, 0, 0)
      = lastPointRGB .COLORMAP_INFERNO := by
  have h := colormap_endpoints .COLORMAP_INFERNO (0, 0, 0) (-3)
  have h2 := colormap_endpoints .COLORMAP_INFERNO (0, 0, 0) 2
  exact ⟨⟨by norm_num, by norm_num⟩, h.1 (by norm_num), h2.2 (by norm_num)⟩

/-! ### Line builder (spectrogram_lines.cpp:196-209, 867-882)

Float arithmetic with log10 is modelled over the real numbers. The
magnitude array and the per-bar fractional bin table are arbitrary real
valued maps, exactly the data buildCurrentLine reads. -/

noncomputable section

def MAG_GAIN : ℝ := 140

def clamp01R (v : ℝ) : ℝ :=
  max 0 (min 1 v)

/-- The interpolated magnitude read by buildCurrentLine
(spectrogram_lines.cpp:871-878): floor the fractional bin, take the
fractional part before clamping, clamp the base bin to the valid range,
and blend the two neighbouring magnitudes. -/
def interpolatedMagnitude (nFreq : Nat) (mags : Nat → ℝ) (binF : ℝ) : ℝ :=
  let bin0 : Int := ⌊binF⌋
  let frac : ℝ := binF - (bin0 : ℝ)
  let bin0c : Int := max 0 (min ((nFreq : Int) - 2) bin0)
  let bin1 : Int := bin0c + 1
  mags bin0c.toNat * (1 - frac) + mags bin1.toNat * frac

/-- Embeds buildCurrentLine (spectrogram_lines.cpp:867-882) for one bar:
logarithmic compression of the interpolated magnitude, clamped to the unit
interval. -/
def buildCurrentLine (nFreq : Nat) (mags : Nat → ℝ) (binTable : Nat → ℝ)
    (i : Nat) : ℝ :=
  let logDen := Real.logb 10 (1 + MAG_GAIN)
  let m := interpolatedMagnitude nFreq mags (binTable i)
  let v := Real.logb 10 (1 + m * MAG_GAIN) / logDen
  clamp01R v

end

/-- C7: each bar value produced by the line builder is the log-compressed
interpolated magnitude log10(1 + m * GAIN) / log10(1 + GAIN) clamped to
the unit interval, and in particular every element of the display line
lies between 0 and 1. -/
theorem buildCurrentLine_log_compression (nFreq : Nat) (mags : Nat → ℝ)
    (binTable : Nat → ℝ) (i : Nat) :
    buildCurrentLine nFreq mags binTable i
      = clamp01R (Real.logb 10
            (1 + interpolatedMagnitude nFreq mags (binTable i) * MAG_GAIN)
          / Real.logb 10 (1 + MAG_GAIN)) ∧
    0 ≤ buildCurrentLine nFreq mags binTable i ∧
    buildCurrentLine nFreq mags binTable i ≤ 1 := by
  refine ⟨rfl, ?_, ?_⟩
  · exact le_max_left 0 _
  · exact max_le zero_le_one (min_le_left 1 _)

/-! ### Log-frequency bar mapping (spectrogram_lines.cpp:769-786)

buildFrequencyMapping fills gBarBinF with log-spaced fractional bin
indices; pow on floats becomes real rpow. The clamp bound
(float)(getNumFrequencies() - 2) is integer arithmetic on FFT_SIZE / 2
before the cast, mirrored with integer division and subtraction. -/

noncomputable section

def MIN_FREQ : ℝ := 20

/-- The unclamped fractional bin index of bar i computed by
buildFrequencyMapping (spectrogram_lines.cpp:770-779). -/
def gBarBinFUnclamped (sampleRate : ℝ) (fftSize numBars i : Nat) : ℝ :=
  let maxFreq := sampleRate * 0.5
  let minF := max MIN_FREQ 1
  let maxF := max (minF * 1.001) maxFreq
  let ratio := maxF / minF
  let t : ℝ := if numBars = 1 then 0 else (i : ℝ) / (((numBars : Int) - 1 : Int) : ℝ)
  let freq := minF * ratio ^ t
  freq * (fftSize : ℝ) / sampleRate

/-- The stored per-bar bin index gBarBinF of buildFrequencyMapping
(spectrogram_lines.cpp:780-782): the unclamped index clamped between 1 and
FFT_SIZE / 2 - 2. -/
def gBarBinF (sampleRate : ℝ) (fftSize numBars i : Nat) : ℝ :=
  max 1 (min (gBarBinFUnclamped sampleRate fftSize numBars i)
    ((((fftSize : Int) / 2 - 2 : Int)) : ℝ))

end

lemma gBarBinFUnclamped_le (sampleRate : ℝ) (fftSize numBars : Nat)
    (i j : Nat) (hN : 2 ≤ numBars) (hsr : 0 < sampleRate) (hij : i ≤ j) :
    gBarBinFUnclamped sampleRate fftSize numBars i
      ≤ gBarBinFUnclamped sampleRate fftSize numBars j := by
  have hne : ¬ numBars = 1 := by omega
  simp only [gBarBinFUnclamped, if_neg hne]
  have hminF : (1 : ℝ) ≤ max MIN_FREQ 1 := le_max_right _ _
  have hratio : 1 < max (max MIN_FREQ 1 * 1.001) (sampleRate * 0.5) / max MIN_FREQ 1 := by
    rw [lt_div_iff₀ (by linarith)]
    have h1 : max MIN_FREQ 1 * 1 < max MIN_FREQ 1 * 1.001 := by
      have := mul_lt_mul_of_pos_left (by norm_num : (1 : ℝ) < 1.001)
        (show (0 : ℝ) < max MIN_FREQ 1 by linarith)
      linarith
    calc 1 * max MIN_FREQ 1 = max MIN_FREQ 1 * 1 := by ring
    _ < max MIN_FREQ 1 * 1.001 := h1
    _ ≤ max (max MIN_FREQ 1 * 1.001) (sampleRate * 0.5) := le_max_left _ _
  have hd : (0 : ℝ) < (((numBars : Int) - 1 : Int) : ℝ) := by
    have h1 : (1 : Int) ≤ (numBars : Int) - 1 := by omega
    exact_mod_cast lt_of_lt_of_le Int.zero_lt_one h1
  have ht : (i : ℝ) / (((numBars : Int) - 1 : Int) : ℝ)
      ≤ (j : ℝ) / (((numBars : Int) - 1 : Int) : ℝ) := by
    rw [div_le_div_iff_of_pos_right hd]
    exact_mod_cast hij
  have hpow : (max (max MIN_FREQ 1 * 1.001) (sampleRate * 0.5) / max MIN_FREQ 1)
        ^ ((i : ℝ) / (((numBars : Int) - 1 : Int) : ℝ))
      ≤ (max (max MIN_FREQ 1 * 1.001) (sampleRate * 0.5) / max MIN_FREQ 1)
        ^ ((j : ℝ) / (((numBars : Int) - 1 : Int) : ℝ)) :=
    (Real.rpow_le_rpow_left_iff hratio).mpr ht
  have hfreq : max MIN_FREQ 1
        * (max (max MIN_FREQ 1 * 1.001) (sampleRate * 0.5) / max MIN_FREQ 1)
          ^ ((i : ℝ) / (((numBars : Int) - 1 : Int) : ℝ))
      ≤ max MIN_FREQ 1
        * (max (max MIN_FREQ 1 * 1.001) (sampleRate * 0.5) / max MIN_FREQ 1)
          ^ ((j : ℝ) / (((numBars : Int) - 1 : Int) : ℝ)) :=
    mul_le_mul_of_nonneg_left hpow (by linarith)
  have hnum : max MIN_FREQ 1
        * (max (max MIN_FREQ 1 * 1.001) (sampleRate * 0.5) / max MIN_FREQ 1)
          ^ ((i : ℝ) / (((numBars : Int) - 1 : Int) : ℝ)) * (fftSize : ℝ)
      ≤ max MIN_FREQ 1
        * (max (max MIN_FREQ 1 * 1.001) (sampleRate * 0.5) / max MIN_FREQ 1)
          ^ ((j : ℝ) / (((numBars : Int) - 1 : Int) : ℝ)) * (fftSize : ℝ) :=
    mul_le_mul_of_nonneg_right hfreq (Nat.cast_nonneg fftSize)
  exact (div_le_div_iff_of_pos_right hsr).mpr hnum

lemma gBarBinFUnclamped_lt (sampleRate : ℝ) (fftSize numBars : Nat)
    (i j : Nat) (hN : 2 ≤ numBars) (hsr : 0 < sampleRate) (hij : i < j)
    (hF : 0 < fftSize) :
    gBarBinFUnclamped sampleRate fftSize numBars i
      < gBarBinFUnclamped sampleRate fftSize numBars j := by
  have hne : ¬ numBars = 1 := by omega
  simp only [gBarBinFUnclamped, if_neg hne]
  have hminF : (1 : ℝ) ≤ max MIN_FREQ 1 := le_max_right _ _
  have hratio : 1 < max (max MIN_FREQ 1 * 1.001) (sampleRate * 0.5) / max MIN_FREQ 1 := by
    rw [lt_div_iff₀ (by linarith)]
    have h1 : max MIN_FREQ 1 * 1 < max MIN_FREQ 1 * 1.001 := by
      have := mul_lt_mul_of_pos_left (by norm_num : (1 : ℝ) < 1.001)
        (show (0 : ℝ) < max MIN_FREQ 1 by linarith)
      linarith
    calc 1 * max MIN_FREQ 1 = max MIN_FREQ 1 * 1 := by ring
    _ < max MIN_FREQ 1 * 1.001 := h1
    _ ≤ max (max MIN_FREQ 1 * 1.001) (sampleRate * 0.5) := le_max_left _ _
  have hd : (0 : ℝ) < (((numBars : Int) - 1 : Int) : ℝ) := by
    have h1 : (1 : Int) ≤ (numBars : Int) - 1 := by omega
    exact_mod_cast lt_of_lt_of_le Int.zero_lt_one h1
  have ht : (i : ℝ) / (((numBars : Int) - 1 : Int) : ℝ)
      < (j : ℝ) / (((numBars : Int) - 1 : Int) : ℝ) := by
    rw [div_lt_div_iff_of_pos_right hd]
    exact_mod_cast hij
  have hpow : (max (max MIN_FREQ 1 * 1.001) (sampleRate * 0.5) / max MIN_FREQ 1)
        ^ ((i : ℝ) / (((numBars : Int) - 1 : Int) : ℝ))
      < (max (max MIN_FREQ 1 * 1.001) (sampleRate * 0.5) / max MIN_FREQ 1)
        ^ ((j : ℝ) / (((numBars : Int) - 1 : Int) : ℝ)) :=
    (Real.rpow_lt_rpow_left_iff hratio).mpr ht
  have hfreq : max MIN_FREQ 1
        * (max (max MIN_FREQ 1 * 1.001) (sampleRate * 0.5) / max MIN_FREQ 1)
          ^ ((i : ℝ) / (((numBars : Int) - 1 : Int) : ℝ))
      < max MIN_FREQ 1
        * (max (max MIN_FREQ 1 * 1.001) (sampleRate * 0.5) / max MIN_FREQ 1)
          ^ ((j : ℝ) / (((numBars : Int) - 1 : Int) : ℝ)) :=
    mul_lt_mul_of_pos_left hpow (by linarith)
  have hFc : (0 : ℝ) < (fftSize : ℝ) := by exact_mod_cast hF
  have hnum : max MIN_FREQ 1
        * (max (max MIN_FREQ 1 * 1.001) (sampleRate * 0.5) / max MIN_FREQ 1)
          ^ ((i : ℝ) / (((numBars : Int) - 1 : Int) : ℝ)) * (fftSize : ℝ)
      < max MIN_FREQ 1
        * (max (max MIN_FREQ 1 * 1.001) (sampleRate * 0.5) / max MIN_FREQ 1)
          ^ ((j : ℝ) / (((numBars : Int) - 1 : Int) : ℝ)) * (fftSize : ℝ) :=
    mul_lt_mul_of_pos_right hfreq hFc
  exact (div_lt_div_iff_of_pos_right hsr).mpr hnum

lemma gBarBinFUnclamped_zero_fft (sampleRate : ℝ) (numBars i : Nat) :
    gBarBinFUnclamped sampleRate 0 numBars i = 0 := by
  simp [gBarBinFUnclamped]

/-- C9: for at least two bars and a positive sample rate the clamped
per-bar bin indices are non-decreasing in the bar index, and strictly
increasing between bars whose unclamped indices both lie inside the clamp
range (the log spacing ratio always exceeds one because the frequency
ceiling exceeds the 20 Hz floor). -/
theorem gBarBinF_monotone (sampleRate : ℝ) (fftSize numBars i j : Nat)
    (hN : 2 ≤ numBars) (hsr : 0 < sampleRate) (hij : i < j) (hj : j < numBars) :
    gBarBinF sampleRate fftSize numBars i ≤ gBarBinF sampleRate fftSize numBars j ∧
    ((1 ≤ gBarBinFUnclamped sampleRate fftSize numBars i ∧
        gBarBinFUnclamped sampleRate fftSize numBars i
          ≤ ((((fftSize : Int) / 2 - 2 : Int)) : ℝ) ∧
        1 ≤ gBarBinFUnclamped sampleRate fftSize numBars j ∧
        gBarBinFUnclamped sampleRate fftSize numBars j
          ≤ ((((fftSize : Int) / 2 - 2 : Int)) : ℝ)) →
      gBarBinF sampleRate fftSize numBars i < gBarBinF sampleRate fftSize numBars j) := by
  constructor
  · have hU := gBarBinFUnclamped_le sampleRate fftSize numBars i j hN hsr (le_of_lt hij)
    exact max_le_max le_rfl (min_le_min hU le_rfl)
  · rintro ⟨hi1, hic, hj1, hjc⟩
    have hF : 0 < fftSize := by
      by_contra hF0
      have h0 : fftSize = 0 := by omega
      rw [h0, gBarBinFUnclamped_zero_fft] at hi1
      linarith
    have hU := gBarBinFUnclamped_lt sampleRate fftSize numBars i j hN hsr hij hF
    unfold gBarBinF
    rw [min_eq_left hic, max_eq_right hi1, min_eq_left hjc, max_eq_right hj1]
    exact hU

theorem gBarBinF_monotone_witness :
    (2 ≤ 8 ∧ (0 : ℝ) < 44100 ∧ 0 < 1 ∧ 1 < 8) ∧
    gBarBinF 44100 4096 8 0 ≤ gBarBinF 44100 4096 8 1 := by
  have h := gBarBinF_monotone 44100 4096 8 0 1 (by norm_num) (by norm_num)
    (by norm_num) (by norm_num)
  exact ⟨⟨by norm_num, by norm_num, by norm_num, by norm_num⟩, h.1⟩
